import Mathlib

/-!
# Verification of the ShengTang convertible-bond valuation engine

Shallow embedding of `cb_quant_system/strategy_shengtang.py` over the reals.
Floating-point arithmetic is modelled by exact real arithmetic; `scipy`'s
`norm.cdf` is modelled by the integral of the standard normal density.
`pandas` missing values (absent column or NaN where the source checks
`pd.isna`) are modelled by `Option.none`; `row.get(key, default)` becomes
`Option.getD`.
-/

namespace CB

noncomputable section

open MeasureTheory Set

/-! ## The standard normal distribution (model of `scipy.stats.norm.cdf`) -/

/-- Standard normal density `φ(x) = exp(-x²/2)/√(2π)`. -/
def normPDF (x : ℝ) : ℝ := (Real.sqrt (2 * Real.pi))⁻¹ * Real.exp (-(x ^ 2) / 2)

/-- Standard normal CDF `Φ(x) = ∫_{-∞}^x φ`, the model of `norm.cdf`. -/
def normCDF (x : ℝ) : ℝ := ∫ t in Iic x, normPDF t

lemma normPDF_eq_gaussian : normPDF = ProbabilityTheory.gaussianPDFReal 0 1 := by
  funext x
  simp [normPDF, ProbabilityTheory.gaussianPDFReal]

lemma normPDF_pos (x : ℝ) : 0 < normPDF x := by
  rw [normPDF_eq_gaussian]
  exact ProbabilityTheory.gaussianPDFReal_pos 0 1 x one_ne_zero

lemma normPDF_nonneg (x : ℝ) : 0 ≤ normPDF x := (normPDF_pos x).le

lemma integrable_normPDF : Integrable normPDF := by
  rw [normPDF_eq_gaussian]
  exact ProbabilityTheory.integrable_gaussianPDFReal 0 1

lemma integral_normPDF : ∫ x, normPDF x = 1 := by
  rw [normPDF_eq_gaussian]
  exact ProbabilityTheory.integral_gaussianPDFReal_eq_one 0 one_ne_zero

lemma normPDF_neg (x : ℝ) : normPDF (-x) = normPDF x := by
  simp [normPDF]

lemma normCDF_nonneg (x : ℝ) : 0 ≤ normCDF x :=
  setIntegral_nonneg measurableSet_Iic (fun t _ => normPDF_nonneg t)

lemma normCDF_le_one (x : ℝ) : normCDF x ≤ 1 := by
  rw [normCDF, ← integral_normPDF]
  exact setIntegral_le_integral integrable_normPDF
    (Filter.Eventually.of_forall normPDF_nonneg)

lemma normCDF_mono {x y : ℝ} (h : x ≤ y) : normCDF x ≤ normCDF y :=
  setIntegral_mono_set integrable_normPDF.integrableOn
    (Filter.Eventually.of_forall normPDF_nonneg)
    (HasSubset.Subset.eventuallyLE (Iic_subset_Iic.mpr h))

lemma normCDF_compl (x : ℝ) : normCDF x + ∫ t in Ioi x, normPDF t = 1 := by
  rw [normCDF, ← integral_normPDF,
    ← setIntegral_union (Iic_disjoint_Ioi le_rfl) measurableSet_Ioi
      integrable_normPDF.integrableOn integrable_normPDF.integrableOn,
    Iic_union_Ioi, setIntegral_univ]

/-- `Φ(x) + Φ(-x) = 1`: symmetry of the standard normal. -/
lemma normCDF_add_neg (x : ℝ) : normCDF x + normCDF (-x) = 1 := by
  have h : normCDF (-x) = ∫ t in Ioi x, normPDF t := by
    rw [normCDF]
    have := integral_comp_neg_Ioi x normPDF
    simp only [normPDF_neg] at this
    exact this.symm
  rw [h]
  exact normCDF_compl x

/-! ### Exponential tilting of the normal density

`e^{-at} φ(t) = e^{a²/2} φ(t+a)`, the completing-the-square identity behind
the Black–Scholes positivity and parity facts. -/

lemma normPDF_shift (a t : ℝ) :
    Real.exp (-(a * t)) * normPDF t = Real.exp (a ^ 2 / 2) * normPDF (t + a) := by
  simp only [normPDF]
  rw [mul_left_comm (Real.exp (a ^ 2 / 2)), mul_left_comm (Real.exp (-(a * t))),
    ← Real.exp_add, ← Real.exp_add]
  have h : -(a * t) + -(t ^ 2) / 2 = a ^ 2 / 2 + -((t + a) ^ 2) / 2 := by ring
  rw [h]

lemma integrable_expShift_normPDF (a : ℝ) :
    Integrable (fun t => Real.exp (-(a * t)) * normPDF t) := by
  have h : (fun t => Real.exp (-(a * t)) * normPDF t)
      = fun t => Real.exp (a ^ 2 / 2) * normPDF (t + a) := funext fun t => normPDF_shift a t
  rw [h]
  exact (integrable_normPDF.comp_add_right a).const_mul _

lemma setIntegral_normPDF_add (a c : ℝ) :
    ∫ t in Iic c, normPDF (t + a) = normCDF (c + a) := by
  rw [normCDF, ← integral_indicator measurableSet_Iic, ← integral_indicator measurableSet_Iic,
    ← integral_add_right_eq_self ((Iic (c + a)).indicator normPDF) a]
  congr 1
  funext t
  simp only [Set.indicator_apply, mem_Iic]
  by_cases ht : t ≤ c
  · rw [if_pos ht, if_pos (by linarith)]
  · rw [if_neg ht, if_neg (by intro h; exact ht (by linarith))]

lemma setIntegral_expShift_normPDF (a c : ℝ) :
    ∫ t in Iic c, Real.exp (-(a * t)) * normPDF t
      = Real.exp (a ^ 2 / 2) * normCDF (c + a) := by
  calc ∫ t in Iic c, Real.exp (-(a * t)) * normPDF t
      = ∫ t in Iic c, Real.exp (a ^ 2 / 2) * normPDF (t + a) :=
        setIntegral_congr_fun measurableSet_Iic fun t _ => normPDF_shift a t
    _ = Real.exp (a ^ 2 / 2) * ∫ t in Iic c, normPDF (t + a) := by
        rw [integral_mul_left]
    _ = _ := by rw [setIntegral_normPDF_add]

lemma integral_expShift_normPDF (a : ℝ) :
    ∫ t, Real.exp (-(a * t)) * normPDF t = Real.exp (a ^ 2 / 2) := by
  calc ∫ t, Real.exp (-(a * t)) * normPDF t
      = ∫ t, Real.exp (a ^ 2 / 2) * normPDF (t + a) := by
        congr 1
        funext t
        exact normPDF_shift a t
    _ = Real.exp (a ^ 2 / 2) * ∫ t, normPDF (t + a) := by rw [integral_mul_left]
    _ = Real.exp (a ^ 2 / 2) := by
        rw [integral_add_right_eq_self normPDF a, integral_normPDF, mul_one]

lemma integral_split_Iic_Ioi {f : ℝ → ℝ} (hf : Integrable f) (d : ℝ) :
    (∫ t in Iic d, f t) + ∫ t in Ioi d, f t = ∫ t, f t := by
  rw [← setIntegral_union (Iic_disjoint_Ioi le_rfl) measurableSet_Ioi
    hf.integrableOn hf.integrableOn, Iic_union_Ioi, setIntegral_univ]

/-- Key comparison (call side): `C e^{-ad} Φ(d) ≤ C e^{a²/2} Φ(d+a)` for `a > 0, C ≥ 0`. -/
lemma shift_cdf_ge (a C d : ℝ) (ha : 0 < a) (hC : 0 ≤ C) :
    C * Real.exp (-(a * d)) * normCDF d ≤ C * Real.exp (a ^ 2 / 2) * normCDF (d + a) := by
  have h1 : C * Real.exp (a ^ 2 / 2) * normCDF (d + a)
      = ∫ t in Iic d, C * (Real.exp (-(a * t)) * normPDF t) := by
    rw [integral_mul_left, setIntegral_expShift_normPDF]
    ring
  have h2 : C * Real.exp (-(a * d)) * normCDF d
      = ∫ t in Iic d, C * Real.exp (-(a * d)) * normPDF t := by
    rw [integral_mul_left, normCDF]
  rw [h1, h2]
  apply setIntegral_mono_on
  · exact (integrable_normPDF.const_mul _).integrableOn
  · exact ((integrable_expShift_normPDF a).const_mul C).integrableOn
  · exact measurableSet_Iic
  · intro t ht
    have hexp : Real.exp (-(a * d)) ≤ Real.exp (-(a * t)) := by
      apply Real.exp_le_exp.mpr
      have : t ≤ d := ht
      nlinarith
    have := mul_le_mul_of_nonneg_right hexp (normPDF_nonneg t)
    calc C * Real.exp (-(a * d)) * normPDF t
        = C * (Real.exp (-(a * d)) * normPDF t) := by ring
      _ ≤ C * (Real.exp (-(a * t)) * normPDF t) := mul_le_mul_of_nonneg_left this hC

/-- Key comparison (put side): `C e^{a²/2} Φ(-(d+a)) ≤ C e^{-ad} Φ(-d)` for `a > 0, C ≥ 0`. -/
lemma shift_cdf_ge_Ioi (a C d : ℝ) (ha : 0 < a) (hC : 0 ≤ C) :
    C * Real.exp (a ^ 2 / 2) * normCDF (-(d + a)) ≤ C * Real.exp (-(a * d)) * normCDF (-d) := by
  have hca : normCDF (-(d + a)) = 1 - normCDF (d + a) := by
    have := normCDF_add_neg (d + a)
    linarith
  have hcd : normCDF (-d) = 1 - normCDF d := by
    have := normCDF_add_neg d
    linarith
  have h1 : C * Real.exp (a ^ 2 / 2) * normCDF (-(d + a))
      = ∫ t in Ioi d, C * (Real.exp (-(a * t)) * normPDF t) := by
    have hsplit := integral_split_Iic_Ioi ((integrable_expShift_normPDF a).const_mul C) d
    have hfull : ∫ t, C * (Real.exp (-(a * t)) * normPDF t)
        = C * Real.exp (a ^ 2 / 2) := by
      rw [integral_mul_left, integral_expShift_normPDF]
    have hIic : ∫ t in Iic d, C * (Real.exp (-(a * t)) * normPDF t)
        = C * (Real.exp (a ^ 2 / 2) * normCDF (d + a)) := by
      rw [integral_mul_left, setIntegral_expShift_normPDF]
    rw [hca]
    rw [hfull, hIic] at hsplit
    linarith
  have h2 : C * Real.exp (-(a * d)) * normCDF (-d)
      = ∫ t in Ioi d, C * Real.exp (-(a * d)) * normPDF t := by
    have hsplit := integral_split_Iic_Ioi (integrable_normPDF.const_mul
      (C * Real.exp (-(a * d)))) d
    have hfull : ∫ t, C * Real.exp (-(a * d)) * normPDF t
        = C * Real.exp (-(a * d)) := by
      rw [integral_mul_left, integral_normPDF, mul_one]
    have hIic : ∫ t in Iic d, C * Real.exp (-(a * d)) * normPDF t
        = C * Real.exp (-(a * d)) * normCDF d := by
      rw [integral_mul_left, normCDF]
    rw [hcd]
    rw [hfull, hIic] at hsplit
    linarith
  rw [h1, h2]
  apply setIntegral_mono_on
  · exact ((integrable_expShift_normPDF a).const_mul C).integrableOn
  · exact (integrable_normPDF.const_mul _).integrableOn
  · exact measurableSet_Ioi
  · intro t ht
    have hexp : Real.exp (-(a * t)) ≤ Real.exp (-(a * d)) := by
      apply Real.exp_le_exp.mpr
      have : d < t := ht
      nlinarith
    have := mul_le_mul_of_nonneg_right hexp (normPDF_nonneg t)
    calc C * (Real.exp (-(a * t)) * normPDF t)
        ≤ C * (Real.exp (-(a * d)) * normPDF t) := mul_le_mul_of_nonneg_left this hC
      _ = C * Real.exp (-(a * d)) * normPDF t := by ring

/-! ## Model parameters (`SHENGTANG_CONFIG`) -/

def risk_free_rate : ℝ := 0.025

/-- The `credit_spread` table of `SHENGTANG_CONFIG`, including its
`'default'` entry (the dictionary layout of the source). -/
def credit_spread_table : List (String × ℝ) :=
  [("AAA", 0.005), ("AA+", 0.010), ("AA", 0.015), ("AA-", 0.020),
   ("A+", 0.030), ("A", 0.040), ("A-", 0.050), ("BBB", 0.070), ("default", 0.025)]

def default_credit_spread : ℝ := 0.025

def downward_revision_base_prob : ℝ := 0.80

def volatility_adjustment : ℝ := 1.1

def default_volatility : ℝ := 0.35

def conversion_threshold : ℝ := 130.0

/-- Default coupon schedule used by `calculate_bond_floor`. -/
def default_coupon_rates : List ℝ := [0.004, 0.006, 0.010, 0.015, 0.020, 0.025]

/-! ## Pricing primitives -/

/-- `d1` of `black_scholes_call` / `black_scholes_put`. -/
def bs_d1 (S K T r sigma : ℝ) : ℝ :=
  (Real.log (S / K) + (r + 0.5 * sigma ^ 2) * T) / (sigma * Real.sqrt T)

/-- `d2 = d1 - σ√T`. -/
def bs_d2 (S K T r sigma : ℝ) : ℝ := bs_d1 S K T r sigma - sigma * Real.sqrt T

/-- `black_scholes_call(S, K, T, r, sigma)`. -/
def black_scholes_call (S K T r sigma : ℝ) : ℝ :=
  if T ≤ 0 ∨ sigma ≤ 0 ∨ S ≤ 0 ∨ K ≤ 0 then max 0 (S - K)
  else max 0 (S * normCDF (bs_d1 S K T r sigma)
    - K * Real.exp (-(r * T)) * normCDF (bs_d2 S K T r sigma))

/-- `black_scholes_put(S, K, T, r, sigma)`. -/
def black_scholes_put (S K T r sigma : ℝ) : ℝ :=
  if T ≤ 0 ∨ sigma ≤ 0 ∨ S ≤ 0 ∨ K ≤ 0 then max 0 (K - S)
  else max 0 (K * Real.exp (-(r * T)) * normCDF (-bs_d2 S K T r sigma)
    - S * normCDF (-bs_d1 S K T r sigma))

/-- Model of Python's `str.strip().upper()`: drop surrounding whitespace,
then upper-case every character. -/
def normalizeRating (s : String) : String :=
  ⟨(((s.data.dropWhile Char.isWhitespace).reverse.dropWhile
      Char.isWhitespace).reverse).map Char.toUpper⟩

/-- `get_credit_spread(rating)`; `none` models a `pd.isna` rating. -/
def get_credit_spread (rating : Option String) : ℝ :=
  match rating with
  | none => default_credit_spread
  | some s => (credit_spread_table.lookup (normalizeRating s)).getD default_credit_spread

/-- `calculate_conversion_probability(S, K, T, sigma, threshold)`. -/
def calculate_conversion_probability (S K T sigma threshold : ℝ) : ℝ :=
  if T ≤ 0 ∨ sigma ≤ 0 then
    if S / K * 100 ≥ threshold then 1.0 else 0.0
  else
    normCDF ((Real.log (S / (K * threshold / 100))
      + (risk_free_rate - 0.5 * sigma ^ 2) * T) / (sigma * Real.sqrt T))

/-! ## Bond floor -/

/-- The coupon-discounting loop of `calculate_bond_floor`; state is
`(pv, remaining_prob)`, `year` counts up from 1, and the loop `break`s at the
first `year > years_to_maturity`. -/
def bond_floor_loop (face discount_rate T : ℝ) (crs ps : List ℝ) :
    ℕ → ℕ → ℝ × ℝ → ℝ × ℝ
  | 0, _, acc => acc
  | fuel + 1, year, (pv, rem) =>
    if T < (year : ℝ) then (pv, rem)
    else
      -- coupon = face * coupon_rates[min(year-1, len-1)]
      -- conv_prob = conversion_probs[min(year-1, len-1)]
      -- adjusted_coupon = coupon * remaining_prob * (1 - conv_prob)
      bond_floor_loop face discount_rate T crs ps fuel (year + 1)
        (pv + face * crs.getD (min (year - 1) (crs.length - 1)) 0 * rem
            * (1 - ps.getD (min (year - 1) (ps.length - 1)) 0)
            / (1 + discount_rate) ^ year,
          rem * (1 - ps.getD (min (year - 1) (ps.length - 1)) 0))

/-- The coupon-schedule normalization at the top of `calculate_bond_floor`:
`None` or an empty list is replaced by the default schedule. -/
def effective_coupon_rates (coupon_rates : Option (List ℝ)) : List ℝ :=
  match coupon_rates with
  | none => default_coupon_rates
  | some l => if l.isEmpty then default_coupon_rates else l

/-- `calculate_bond_floor(face_value, coupon_rates, years_to_maturity,
discount_rate, conversion_probs)`. -/
def calculate_bond_floor (face_value : ℝ) (coupon_rates : Option (List ℝ))
    (years_to_maturity discount_rate : ℝ) (conversion_probs : Option (List ℝ)) : ℝ :=
  if years_to_maturity ≤ 0 then face_value
  else
    let n_years : ℕ := (⌈years_to_maturity⌉).toNat
    let crs := effective_coupon_rates coupon_rates
    let ps := conversion_probs.getD (List.replicate n_years 0)
    let st := bond_floor_loop face_value discount_rate years_to_maturity crs ps n_years 1 (0, 1)
    st.1 + face_value * st.2 / (1 + discount_rate) ^ years_to_maturity

/-! ## Put, conversion option, revision option, forced-redemption loss -/

/-- `calculate_put_value`; note that `face_value` is accepted but unused,
exactly as in the source. -/
def calculate_put_value (face_value put_price years_to_put discount_rate
    put_probability : ℝ) : ℝ :=
  if years_to_put ≤ 0 then put_price * put_probability
  else put_price / (1 + discount_rate) ^ years_to_put * put_probability

/-- `calculate_call_option_value`: BS call times `100 / K` shares per bond. -/
def calculate_call_option_value (S K T sigma r : ℝ) : ℝ :=
  black_scholes_call S K T r sigma * (100 / K)

/-- `calculate_downward_revision_value`. -/
def calculate_downward_revision_value (S K T sigma r years_to_put : ℝ) : ℝ :=
  let base_prob := downward_revision_base_prob
  let revision_prob :=
    if years_to_put ≤ 0 then base_prob
    else if years_to_put ≤ 1 then base_prob * 0.9
    else if years_to_put ≤ 2 then base_prob * 0.5
    else base_prob * 0.2
  let current_cv := S / K * 100
  let revision_prob2 :=
    if current_cv > 100 then revision_prob * 0.3
    else if current_cv > 90 then revision_prob * 0.6
    else revision_prob
  let new_K := S * 0.9
  let original_call := calculate_call_option_value S K T sigma r
  let revised_call := calculate_call_option_value S new_K T sigma r
  max 0 (revised_call - original_call) * revision_prob2

/-- `calculate_forced_redemption_loss`. -/
def calculate_forced_redemption_loss (S K T sigma r call_trigger : ℝ) : ℝ :=
  if T ≤ 0.5 then 0
  else
    let call_price := K * call_trigger
    let call_prob := normCDF ((Real.log (S / call_price)
      + (r - 0.5 * sigma ^ 2) * T) / (sigma * Real.sqrt T))
    let current_cv := S / K * 100
    let call_prob2 := if current_cv > 125 then min 0.95 (call_prob * 1.5) else call_prob
    let remaining_T := max 0 (T - 1)
    if remaining_T > 0 then
      max 0 (calculate_call_option_value S K T sigma r
        - calculate_call_option_value S K 1 sigma r) * call_prob2
    else 0

/-! ## Data model -/

/-- A bond record (`row`): `none` models a missing column, or a NaN cell at
the places where the source checks `pd.isna`. -/
structure BondRecord where
  price : Option ℝ
  stock_price : Option ℝ
  convert_price : Option ℝ
  years_to_maturity : Option ℝ
  rating : Option String
  premium_rate : Option ℝ

/-- The dictionary returned by `calculate_shengtang_value`. -/
structure ValuationResult where
  bond_floor : ℝ
  put_value : ℝ
  call_option_value : ℝ
  revision_value : ℝ
  redemption_loss : ℝ
  total_value : ℝ
  current_price : ℝ
  value_deviation : ℝ

/-! ## Per-record orchestration (`calculate_shengtang_value`) -/

/-- `price = row.get('price', 100)`. -/
def st_price (row : BondRecord) : ℝ := row.price.getD 100

/-- `convert_price = row.get('convert_price', 0)`. -/
def st_convert_price (row : BondRecord) : ℝ := row.convert_price.getD 0

/-- `stock_price` after the fallback for a missing / non-positive value
(`convert_price * 0.8`, or `10` when `convert_price` is also invalid). -/
def st_stock_price (row : BondRecord) : ℝ :=
  let sp := row.stock_price.getD 0
  if sp ≤ 0 then (if st_convert_price row > 0 then st_convert_price row * 0.8 else 10)
  else sp

/-- `years_to_maturity` floored to `0.1` when `≤ 0` (default `3`). -/
def st_years_to_maturity (row : BondRecord) : ℝ :=
  let y := row.years_to_maturity.getD 3
  if y ≤ 0 then 0.1 else y

/-- `discount_rate = risk_free_rate + get_credit_spread(row.get('rating', 'AA'))`. -/
def st_discount_rate (row : BondRecord) : ℝ :=
  risk_free_rate + get_credit_spread (some (row.rating.getD "AA"))

/-- `sigma = default_volatility * volatility_adjustment`. -/
def st_sigma : ℝ := default_volatility * volatility_adjustment

/-- `years_to_put = max(0, years_to_maturity - 2)`. -/
def st_years_to_put (row : BondRecord) : ℝ := max 0 (st_years_to_maturity row - 2)

/-- `for year in range(1, int(years_to_maturity) + 2)`, collecting
`calculate_conversion_probability(stock, convert, min(year, T), σ, 130)`. -/
def st_conversion_probs (row : BondRecord) : List ℝ :=
  (List.range ((⌊st_years_to_maturity row⌋).toNat + 1)).map fun i =>
    calculate_conversion_probability (st_stock_price row) (st_convert_price row)
      (min ((i + 1 : ℕ) : ℝ) (st_years_to_maturity row)) st_sigma conversion_threshold

def st_bond_floor (row : BondRecord) : ℝ :=
  calculate_bond_floor 100 none (st_years_to_maturity row) (st_discount_rate row)
    (some (st_conversion_probs row))

/-- Put value with the orchestrator's fixed arguments
(`put_price = 103`, `put_probability = 0.1`). -/
def st_put_value (row : BondRecord) : ℝ :=
  calculate_put_value 100 103 (st_years_to_put row) (st_discount_rate row) 0.1

def st_call_option_value (row : BondRecord) : ℝ :=
  calculate_call_option_value (st_stock_price row) (st_convert_price row)
    (st_years_to_maturity row) st_sigma risk_free_rate

def st_revision_value (row : BondRecord) : ℝ :=
  calculate_downward_revision_value (st_stock_price row) (st_convert_price row)
    (st_years_to_maturity row) st_sigma risk_free_rate (st_years_to_put row)

def st_redemption_loss (row : BondRecord) : ℝ :=
  calculate_forced_redemption_loss (st_stock_price row) (st_convert_price row)
    (st_years_to_maturity row) st_sigma risk_free_rate 1.30

/-- `total_value = max(bond_floor, bond_floor + put_value) + call_option
+ revision_value - redemption_loss`. -/
def st_total_value (row : BondRecord) : ℝ :=
  max (st_bond_floor row) (st_bond_floor row + st_put_value row)
    + st_call_option_value row + st_revision_value row - st_redemption_loss row

/-- `calculate_shengtang_value(row)`: the all-zero template is returned
(with `current_price` already set to `price`) when `convert_price` is
missing or non-positive; otherwise the five components are assembled. -/
def calculate_shengtang_value (row : BondRecord) : ValuationResult :=
  if st_convert_price row ≤ 0 then
    { bond_floor := 0, put_value := 0, call_option_value := 0, revision_value := 0,
      redemption_loss := 0, total_value := 0, current_price := st_price row,
      value_deviation := 0 }
  else
    { bond_floor := st_bond_floor row
      put_value := st_put_value row
      call_option_value := st_call_option_value row
      revision_value := st_revision_value row
      redemption_loss := st_redemption_loss row
      total_value := st_total_value row
      current_price := st_price row
      value_deviation :=
        if st_total_value row > 0 then
          (st_price row - st_total_value row) / st_total_value row * 100
        else 0 }

/-! ## Batch screen (`strategy_shengtang`) -/

/-- `strategy_shengtang(df, top_n, max_premium_rate)`: value every record,
keep `total_value > 0`, keep `value_deviation < 0`, then — only when the
frame has a `premium_rate` column (`if 'premium_rate' in df.columns`,
modelled by the frame-level flag `has_premium_col`) — keep
`premium_rate < max_premium_rate` (a NaN premium compares false, as in
pandas); sort ascending by deviation, and take the first `top_n`.
The final `df.sort_values('st_value_deviation')` is modelled by a sort
that is correct with respect to the key; pandas' default
`kind='quicksort'` guarantees the key order but not the order of ties. -/
def strategy_shengtang (df : List BondRecord) (top_n : ℕ)
    (max_premium_rate : ℝ) (has_premium_col : Bool) :
    List (BondRecord × ValuationResult) :=
  let valued := df.map fun r => (r, calculate_shengtang_value r)
  let pos := valued.filter fun p => decide (p.2.total_value > 0)
  let under := pos.filter fun p => decide (p.2.value_deviation < 0)
  let screened :=
    if has_premium_col then
      under.filter fun p =>
        match p.1.premium_rate with
        | some pr => decide (pr < max_premium_rate)
        | none => false
    else under
  let ranked := screened.mergeSort fun p q =>
    decide (p.2.value_deviation ≤ q.2.value_deviation)
  ranked.take top_n

/-! ## Helper lemmas about the credit-spread lookup -/

lemma lookup_getD_prop {β : Type} {P : β → Prop} (k : String) (d : β) :
    ∀ l : List (String × β), (∀ p ∈ l, P p.2) → P d → P ((l.lookup k).getD d)
  | [], _, hd => hd
  | (a, b) :: es, hl, hd => by
    simp only [List.lookup]
    cases h : (k == a)
    · simp only [h]
      exact lookup_getD_prop k d es (fun p hp => hl p (List.mem_cons_of_mem _ hp)) hd
    · simp only [h]
      exact hl (a, b) (List.mem_cons_self _ _)

/-- C9: `calculate_put_value` does not depend on its `face_value` argument:
the put payoff is priced from `put_price` alone. -/
theorem calculate_put_value_ignores_face_value
    (fv₁ fv₂ put_price years_to_put discount_rate put_probability : ℝ) :
    calculate_put_value fv₁ put_price years_to_put discount_rate put_probability =
      calculate_put_value fv₂ put_price years_to_put discount_rate put_probability := rfl

/-- C10: `get_credit_spread` strips and upper-cases the rating before the
lookup (`' aa '` and `'Aa'` both map to the AA spread `0.015`), returns the
default spread `0.025` for a missing rating or any normalized token outside
the eight rating keys, and always returns one of the nine configured
spreads, each positive and at most `0.07`. -/
theorem get_credit_spread_spec :
    get_credit_spread (some " aa ") = 0.015 ∧
    get_credit_spread (some "Aa") = 0.015 ∧
    get_credit_spread none = 0.025 ∧
    (∀ s : String,
      normalizeRating s ∉ ["AAA", "AA+", "AA", "AA-", "A+", "A", "A-", "BBB"] →
      get_credit_spread (some s) = 0.025) ∧
    (∀ rating : Option String,
      get_credit_spread rating ∈
        ([0.005, 0.010, 0.015, 0.020, 0.030, 0.040, 0.050, 0.070, 0.025] : List ℝ) ∧
      0 < get_credit_spread rating ∧ get_credit_spread rating ≤ 0.07) := by
  refine ⟨?_, ?_, ?_, ?_, ?_⟩
  · have h : normalizeRating " aa " = "AA" := by decide
    simp [get_credit_spread, h, credit_spread_table, List.lookup]
  · have h : normalizeRating "Aa" = "AA" := by decide
    simp [get_credit_spread, h, credit_spread_table, List.lookup]
  · simp [get_credit_spread, default_credit_spread]
  · intro s hs
    simp only [List.mem_cons, List.not_mem_nil, or_false, not_or] at hs
    obtain ⟨h1, h2, h3, h4, h5, h6, h7, h8⟩ := hs
    have e1 := beq_eq_false_iff_ne.mpr h1
    have e2 := beq_eq_false_iff_ne.mpr h2
    have e3 := beq_eq_false_iff_ne.mpr h3
    have e4 := beq_eq_false_iff_ne.mpr h4
    have e5 := beq_eq_false_iff_ne.mpr h5
    have e6 := beq_eq_false_iff_ne.mpr h6
    have e7 := beq_eq_false_iff_ne.mpr h7
    have e8 := beq_eq_false_iff_ne.mpr h8
    simp only [get_credit_spread, credit_spread_table, List.lookup,
      e1, e2, e3, e4, e5, e6, e7, e8]
    cases h9 : (normalizeRating s == "default") <;>
      simp [h9, default_credit_spread]
  · intro rating
    cases rating with
    | none =>
      refine ⟨?_, ?_, ?_⟩ <;> simp [get_credit_spread, default_credit_spread] <;> norm_num
    | some s =>
      simp only [get_credit_spread]
      refine lookup_getD_prop
        (P := fun x : ℝ =>
          x ∈ ([0.005, 0.010, 0.015, 0.020, 0.030, 0.040, 0.050, 0.070, 0.025] : List ℝ) ∧
          0 < x ∧ x ≤ 0.07)
        (normalizeRating s) default_credit_spread credit_spread_table ?_ ?_
      · intro p hp
        simp only [credit_spread_table, List.mem_cons, List.not_mem_nil, or_false] at hp
        rcases hp with h|h|h|h|h|h|h|h|h <;> rw [h] <;>
          exact ⟨by simp, by norm_num, by norm_num⟩
      · exact ⟨by simp [default_credit_spread], by norm_num [default_credit_spread],
          by norm_num [default_credit_spread]⟩

/-! ## C8: the bond floor with zero conversion probabilities -/

/-- Modelled from the claim for the refinement comparison: the plain
fixed-income present value — the sum over integer years `y` from 1 to `⌈T⌉`
with `y ≤ T` of `face * couponRate[min(y-1, last index)] / (1+dr)^y`, plus
`face / (1+dr)^T`. -/
def plain_fixed_income_pv (face : ℝ) (cr : List ℝ) (T dr : ℝ) : ℝ :=
  (((List.range' 1 (⌈T⌉).toNat).filter fun y : ℕ => decide ((y : ℝ) ≤ T)).map
    (fun y : ℕ => face * cr.getD (min (y - 1) (cr.length - 1)) 0 / (1 + dr) ^ y)).sum
  + face / (1 + dr) ^ T

lemma getD_zero_of_all_zero {ps : List ℝ} (h : ∀ p ∈ ps, p = 0) (i : ℕ) :
    ps.getD i 0 = 0 := by
  rw [List.getD_eq_getElem?_getD]
  rcases hg : ps[i]? with _ | p
  · simp
  · simpa using h p (List.getElem?_mem hg)

lemma bond_floor_loop_zero_probs (face dr T : ℝ) (crs ps : List ℝ)
    (hps : ∀ p ∈ ps, p = 0) :
    ∀ (fuel year : ℕ) (pv : ℝ),
      bond_floor_loop face dr T crs ps fuel year (pv, 1)
        = (pv + (((List.range' year fuel).filter fun y : ℕ => decide ((y : ℝ) ≤ T)).map
            (fun y : ℕ => face * crs.getD (min (y - 1) (crs.length - 1)) 0 / (1 + dr) ^ y)).sum,
           1)
  | 0, year, pv => by simp [bond_floor_loop]
  | fuel + 1, year, pv => by
    rw [bond_floor_loop]
    by_cases h : T < (year : ℝ)
    · rw [if_pos h]
      have hnil : ((List.range' year (fuel + 1)).filter fun y : ℕ => decide ((y : ℝ) ≤ T)) = [] := by
        rw [List.filter_eq_nil_iff]
        intro y hy
        obtain ⟨i, -, hi⟩ := List.mem_range'.mp hy
        have hylb : year ≤ y := by omega
        have : (year : ℝ) ≤ (y : ℝ) := Nat.cast_le.mpr hylb
        simp only [decide_eq_true_eq]
        linarith
      simp [hnil]
    · rw [if_neg h]
      push_neg at h
      rw [getD_zero_of_all_zero hps]
      rw [show (1 : ℝ) * (1 - 0) = 1 from by norm_num]
      rw [bond_floor_loop_zero_probs face dr T crs ps hps fuel (year + 1)]
      have hsucc : List.range' year (fuel + 1) = year :: List.range' (year + 1) fuel :=
        List.range'_succ year fuel 1
      rw [hsucc, List.filter_cons_of_pos (by simpa using h), List.map_cons, List.sum_cons]
      simp only [Prod.mk.injEq]
      exact ⟨by ring, trivial⟩

/-- C8: with every per-year conversion probability equal to `0`,
`calculate_bond_floor` is exactly the plain fixed-income present value of the
coupon stream plus principal; for `T ≤ 0` it returns the face value. -/
theorem calculate_bond_floor_zero_probs (face : ℝ) (cr : List ℝ) (T dr : ℝ)
    (ps : List ℝ) (hcr : cr ≠ []) (hps : ∀ p ∈ ps, p = 0) (hpsne : ps ≠ []) :
    (0 < T →
      calculate_bond_floor face (some cr) T dr (some ps)
        = plain_fixed_income_pv face cr T dr) ∧
    (T ≤ 0 → calculate_bond_floor face (some cr) T dr (some ps) = face) := by
  constructor
  · intro hT
    rw [calculate_bond_floor, if_neg (by linarith)]
    simp only [effective_coupon_rates, Option.getD_some, List.isEmpty_eq_true]
    rw [if_neg hcr]
    rw [bond_floor_loop_zero_probs face dr T cr ps hps ((⌈T⌉).toNat) 1 0]
    simp only [plain_fixed_income_pv]
    ring
  · intro hT
    rw [calculate_bond_floor, if_pos hT]

/-- Witness for C8 at `face = 100`, schedule `[0.004]`, `T = 3`,
`dr = 0.03`, probabilities `[0, 0, 0]`. -/
theorem calculate_bond_floor_zero_probs_witness :
    calculate_bond_floor 100 (some [0.004]) 3 0.03 (some [0, 0, 0])
      = plain_fixed_income_pv 100 [0.004] 3 0.03 :=
  (calculate_bond_floor_zero_probs 100 [0.004] 3 0.03 [0, 0, 0]
    (by simp) (by norm_num) (by simp)).1 (by norm_num)

/-! ## Batch-screen facts -/

/-- Any pair in the ranked output passed the two unconditional screens, and
the premium screen whenever the premium column is present. -/
lemma mem_strategy_total_pos {df : List BondRecord} {top_n : ℕ} {mpr : ℝ}
    {hpc : Bool} {p : BondRecord × ValuationResult}
    (hp : p ∈ strategy_shengtang df top_n mpr hpc) :
    0 < p.2.total_value ∧ p.2.value_deviation < 0 ∧
      (hpc = true → ∃ pr, p.1.premium_rate = some pr ∧ pr < mpr) := by
  simp only [strategy_shengtang] at hp
  have h1 := List.mem_of_mem_take hp
  rw [List.mem_mergeSort] at h1
  cases hpc with
  | false =>
    rw [if_neg (by simp)] at h1
    rw [List.mem_filter] at h1
    obtain ⟨h3, hdev⟩ := h1
    rw [List.mem_filter] at h3
    obtain ⟨-, htot⟩ := h3
    exact ⟨by simpa using htot, by simpa using hdev, by intro hf; simp at hf⟩
  | true =>
    rw [if_pos rfl] at h1
    rw [List.mem_filter] at h1
    obtain ⟨h2, hprem⟩ := h1
    rw [List.mem_filter] at h2
    obtain ⟨h3, hdev⟩ := h2
    rw [List.mem_filter] at h3
    obtain ⟨-, htot⟩ := h3
    refine ⟨by simpa using htot, by simpa using hdev, fun _ => ?_⟩
    cases hpr : p.1.premium_rate with
    | none => rw [hpr] at hprem; simp at hprem
    | some pr =>
      rw [hpr] at hprem
      exact ⟨pr, rfl, by simpa using hprem⟩

/-- C1 counterexample: a record with `convertPrice = 0` and market price
`100` gets `current_price = 100`, not `0`, so not every `ValuationResult`
field is zero as the claim states. -/
theorem invalid_convert_price_claim_false :
    (calculate_shengtang_value
      ⟨some 100, none, some 0, none, none, none⟩).current_price = 100 ∧ (100 : ℝ) ≠ 0 := by
  constructor
  · simp [calculate_shengtang_value, st_convert_price, st_price]
  · norm_num

/-- C1 (amended): for a record whose `convertPrice` is missing or not
positive, every field of the `ValuationResult` is `0` except
`current_price`, which echoes the input price (`row.get('price', 100)`); and
the record is absent from the ranked output of `strategy_shengtang` for
every `topN`, every `maxPremiumRate`, and whether or not the batch carries a
`premium_rate` column. -/
theorem invalid_convert_price_result (row : BondRecord)
    (h : row.convert_price.getD 0 ≤ 0) :
    (calculate_shengtang_value row).bond_floor = 0 ∧
    (calculate_shengtang_value row).put_value = 0 ∧
    (calculate_shengtang_value row).call_option_value = 0 ∧
    (calculate_shengtang_value row).revision_value = 0 ∧
    (calculate_shengtang_value row).redemption_loss = 0 ∧
    (calculate_shengtang_value row).total_value = 0 ∧
    (calculate_shengtang_value row).value_deviation = 0 ∧
    (calculate_shengtang_value row).current_price = row.price.getD 100 ∧
    ∀ (df : List BondRecord) (top_n : ℕ) (mpr : ℝ) (hpc : Bool),
      (row, calculate_shengtang_value row) ∉ strategy_shengtang df top_n mpr hpc := by
  have hcv : st_convert_price row ≤ 0 := h
  have hres : calculate_shengtang_value row =
      { bond_floor := 0, put_value := 0, call_option_value := 0, revision_value := 0,
        redemption_loss := 0, total_value := 0, current_price := st_price row,
        value_deviation := 0 } := by
    rw [calculate_shengtang_value, if_pos hcv]
  refine ⟨by rw [hres], by rw [hres], by rw [hres], by rw [hres], by rw [hres],
    by rw [hres], by rw [hres], by rw [hres]; rfl, ?_⟩
  intro df top_n mpr hpc hmem
  have htot := (mem_strategy_total_pos hmem).1
  simp only [hres] at htot
  norm_num at htot

/-- Witness for C1 (amended) at a concrete invalid record. -/
theorem invalid_convert_price_result_witness :
    (calculate_shengtang_value
      ⟨some 100, none, some 0, none, none, none⟩).total_value = 0 :=
  (invalid_convert_price_result ⟨some 100, none, some 0, none, none, none⟩
    (by norm_num)).2.2.2.2.2.1

/-! ## Non-negativity of the valuation components -/

lemma getD_prop_of_all {P : ℝ → Prop} {l : List ℝ} (h : ∀ x ∈ l, P x) (h0 : P 0)
    (i : ℕ) : P (l.getD i 0) := by
  rw [List.getD_eq_getElem?_getD]
  rcases hg : l[i]? with _ | p
  · simpa using h0
  · simpa using h p (List.getElem?_mem hg)

lemma get_credit_spread_pos (rating : Option String) : 0 < get_credit_spread rating := by
  cases rating with
  | none => norm_num [get_credit_spread, default_credit_spread]
  | some s =>
    simp only [get_credit_spread]
    refine lookup_getD_prop (P := fun x : ℝ => 0 < x)
      (normalizeRating s) default_credit_spread credit_spread_table ?_ ?_
    · intro p hp
      simp only [credit_spread_table, List.mem_cons, List.not_mem_nil, or_false] at hp
      rcases hp with h|h|h|h|h|h|h|h|h <;> rw [h] <;> norm_num
    · norm_num [default_credit_spread]

lemma st_discount_rate_pos (row : BondRecord) : 0 < st_discount_rate row := by
  have := get_credit_spread_pos (some (row.rating.getD "AA"))
  rw [st_discount_rate]
  unfold risk_free_rate
  linarith

lemma calculate_put_value_nonneg (fv pp ytp dr prob : ℝ) (hpp : 0 ≤ pp)
    (hprob : 0 ≤ prob) (hdr : -1 < dr) :
    0 ≤ calculate_put_value fv pp ytp dr prob := by
  rw [calculate_put_value]
  split_ifs with h
  · exact mul_nonneg hpp hprob
  · have hpow : (0 : ℝ) < (1 + dr) ^ ytp := Real.rpow_pos_of_pos (by linarith) _
    exact mul_nonneg (div_nonneg hpp hpow.le) hprob

lemma st_put_value_nonneg (row : BondRecord) : 0 ≤ st_put_value row := by
  rw [st_put_value]
  exact calculate_put_value_nonneg _ _ _ _ _ (by norm_num) (by norm_num)
    (by have := st_discount_rate_pos row; linarith)

lemma conversion_probability_mem_Icc (S K T sigma threshold : ℝ) :
    calculate_conversion_probability S K T sigma threshold ∈ Icc (0 : ℝ) 1 := by
  rw [calculate_conversion_probability]
  split_ifs with h h2
  · constructor <;> norm_num
  · constructor <;> norm_num
  · exact ⟨normCDF_nonneg _, normCDF_le_one _⟩

lemma default_coupon_rates_nonneg : ∀ c ∈ default_coupon_rates, 0 ≤ c := by
  intro c hc
  simp only [default_coupon_rates, List.mem_cons, List.not_mem_nil, or_false] at hc
  rcases hc with h|h|h|h|h|h <;> rw [h] <;> norm_num

lemma effective_coupon_rates_nonneg (cro : Option (List ℝ))
    (h : ∀ l, cro = some l → ∀ c ∈ l, 0 ≤ c) :
    ∀ c ∈ effective_coupon_rates cro, 0 ≤ c := by
  cases cro with
  | none => exact default_coupon_rates_nonneg
  | some l =>
    simp only [effective_coupon_rates]
    split_ifs with he
    · exact default_coupon_rates_nonneg
    · exact h l rfl

lemma bond_floor_loop_nonneg (face dr T : ℝ) (crs ps : List ℝ)
    (hface : 0 ≤ face) (hdr : -1 < dr)
    (hcrs : ∀ c ∈ crs, 0 ≤ c) (hps : ∀ p ∈ ps, p ≤ 1) :
    ∀ (fuel year : ℕ) (pv rem : ℝ), 0 ≤ pv → 0 ≤ rem →
      0 ≤ (bond_floor_loop face dr T crs ps fuel year (pv, rem)).1 ∧
      0 ≤ (bond_floor_loop face dr T crs ps fuel year (pv, rem)).2
  | 0, year, pv, rem, hpv, hrem => by
    rw [bond_floor_loop]
    exact ⟨hpv, hrem⟩
  | fuel + 1, year, pv, rem, hpv, hrem => by
    rw [bond_floor_loop]
    split_ifs with h
    · exact ⟨hpv, hrem⟩
    · have hc : 0 ≤ crs.getD (min (year - 1) (crs.length - 1)) 0 :=
        getD_prop_of_all hcrs le_rfl _
      have hp1 : ps.getD (min (year - 1) (ps.length - 1)) 0 ≤ 1 :=
        getD_prop_of_all hps zero_le_one _
      have hpow : (0 : ℝ) < (1 + dr) ^ year := pow_pos (by linarith) _
      apply bond_floor_loop_nonneg face dr T crs ps hface hdr hcrs hps fuel (year + 1)
      · have : 0 ≤ face * crs.getD (min (year - 1) (crs.length - 1)) 0 * rem
            * (1 - ps.getD (min (year - 1) (ps.length - 1)) 0) / (1 + dr) ^ year := by
          apply div_nonneg _ hpow.le
          apply mul_nonneg (mul_nonneg (mul_nonneg hface hc) hrem) (by linarith)
        linarith
      · exact mul_nonneg hrem (by linarith)

lemma calculate_bond_floor_nonneg (face : ℝ) (cro : Option (List ℝ)) (T dr : ℝ)
    (pso : Option (List ℝ)) (hface : 0 ≤ face) (hdr : -1 < dr)
    (hcr : ∀ l, cro = some l → ∀ c ∈ l, 0 ≤ c)
    (hps : ∀ l, pso = some l → ∀ p ∈ l, p ≤ 1) :
    0 ≤ calculate_bond_floor face cro T dr pso := by
  rw [calculate_bond_floor]
  split_ifs with h
  · exact hface
  · have hpsle : ∀ p ∈ pso.getD (List.replicate ((⌈T⌉).toNat) 0), p ≤ 1 := by
      cases pso with
      | none =>
        intro p hp
        simp only [Option.getD_none] at hp
        rw [List.eq_of_mem_replicate hp]
        exact zero_le_one
      | some l => exact hps l rfl
    have hloop := bond_floor_loop_nonneg face dr T (effective_coupon_rates cro)
      (pso.getD (List.replicate ((⌈T⌉).toNat) 0)) hface hdr
      (effective_coupon_rates_nonneg cro hcr) hpsle ((⌈T⌉).toNat) 1 0 1 le_rfl zero_le_one
    have hpow : (0 : ℝ) < (1 + dr) ^ T := Real.rpow_pos_of_pos (by linarith) _
    have h2 : 0 ≤ face * (bond_floor_loop face dr T (effective_coupon_rates cro)
        (pso.getD (List.replicate ((⌈T⌉).toNat) 0)) ((⌈T⌉).toNat) 1 (0, 1)).2
        / (1 + dr) ^ T :=
      div_nonneg (mul_nonneg hface hloop.2) hpow.le
    linarith [hloop.1]

lemma black_scholes_call_nonneg (S K T r sigma : ℝ) :
    0 ≤ black_scholes_call S K T r sigma := by
  rw [black_scholes_call]
  split_ifs <;> exact le_max_left 0 _

lemma calculate_call_option_value_nonneg (S K T sigma r : ℝ) (hK : 0 ≤ K) :
    0 ≤ calculate_call_option_value S K T sigma r :=
  mul_nonneg (black_scholes_call_nonneg S K T r sigma)
    (div_nonneg (by norm_num) hK)

lemma calculate_downward_revision_value_nonneg (S K T sigma r ytp : ℝ) :
    0 ≤ calculate_downward_revision_value S K T sigma r ytp := by
  simp only [calculate_downward_revision_value]
  refine mul_nonneg (le_max_left 0 _) ?_
  split_ifs <;> norm_num [downward_revision_base_prob]

lemma calculate_forced_redemption_loss_nonneg (S K T sigma r ct : ℝ) :
    0 ≤ calculate_forced_redemption_loss S K T sigma r ct := by
  simp only [calculate_forced_redemption_loss]
  split_ifs with h1 h2 h3
  · exact le_rfl
  · refine mul_nonneg (le_max_left 0 _) ?_
    exact le_min (by norm_num) (mul_nonneg (normCDF_nonneg _) (by norm_num))
  · refine mul_nonneg (le_max_left 0 _) ?_
    exact normCDF_nonneg _
  · exact le_rfl

/-! ## Valid-record characterization of `calculate_shengtang_value` -/

lemma calculate_shengtang_value_valid (row : BondRecord)
    (h : 0 < st_convert_price row) :
    calculate_shengtang_value row =
      { bond_floor := st_bond_floor row, put_value := st_put_value row,
        call_option_value := st_call_option_value row,
        revision_value := st_revision_value row,
        redemption_loss := st_redemption_loss row,
        total_value := st_total_value row,
        current_price := st_price row,
        value_deviation :=
          if st_total_value row > 0 then
            (st_price row - st_total_value row) / st_total_value row * 100
          else 0 } := by
  rw [calculate_shengtang_value, if_neg (not_le.mpr h)]

/-- C5: for a record with valid `stockPrice` and `convertPrice`, all five
components of the ValuationResult are non-negative (`redemption_loss` being
the only one subtracted in the total). -/
theorem shengtang_components_nonneg (row : BondRecord) (sp cp : ℝ)
    (hsp : row.stock_price = some sp) (hsp0 : 0 < sp)
    (hcp : row.convert_price = some cp) (hcp0 : 0 < cp) :
    0 ≤ (calculate_shengtang_value row).bond_floor ∧
    0 ≤ (calculate_shengtang_value row).put_value ∧
    0 ≤ (calculate_shengtang_value row).call_option_value ∧
    0 ≤ (calculate_shengtang_value row).revision_value ∧
    0 ≤ (calculate_shengtang_value row).redemption_loss := by
  have hcv : 0 < st_convert_price row := by
    rw [st_convert_price, hcp]
    exact hcp0
  rw [calculate_shengtang_value_valid row hcv]
  refine ⟨?_, st_put_value_nonneg row, ?_, ?_, ?_⟩
  · show 0 ≤ st_bond_floor row
    rw [st_bond_floor]
    refine calculate_bond_floor_nonneg _ _ _ _ _ (by norm_num)
      (by have := st_discount_rate_pos row; linarith) (by intro l hl; cases hl) ?_
    intro l hl
    cases hl
    intro p hp
    simp only [st_conversion_probs, List.mem_map] at hp
    obtain ⟨i, -, rfl⟩ := hp
    exact (conversion_probability_mem_Icc _ _ _ _ _).2
  · show 0 ≤ st_call_option_value row
    rw [st_call_option_value]
    exact calculate_call_option_value_nonneg _ _ _ _ _ hcv.le
  · exact calculate_downward_revision_value_nonneg _ _ _ _ _ _
  · exact calculate_forced_redemption_loss_nonneg _ _ _ _ _ _

/-- Witness for C5 at the concrete record
`(price 95, stock 20, convert 25, T 3, rating AA, premium 12)`. -/
theorem shengtang_components_nonneg_witness :
    0 ≤ (calculate_shengtang_value
      ⟨some 95, some 20, some 25, some 3, some "AA", some 12⟩).bond_floor :=
  (shengtang_components_nonneg ⟨some 95, some 20, some 25, some 3, some "AA", some 12⟩
    20 25 rfl (by norm_num) rfl (by norm_num)).1

/-- C2: for a record with valid `stockPrice` and `convertPrice`, the
`max(bond_floor, bond_floor + put_value)` in the total never selects its
first argument strictly — the put value is non-negative under the
orchestrator's fixed parameters (`put_price = 103`, probability `0.1`,
positive discount rate) — so the total equals the plain sum
`bond_floor + put_value + call_option_value + revision_value -
redemption_loss`. -/
theorem shengtang_total_value_formula (row : BondRecord) (sp cp : ℝ)
    (hsp : row.stock_price = some sp) (hsp0 : 0 < sp)
    (hcp : row.convert_price = some cp) (hcp0 : 0 < cp) :
    (calculate_shengtang_value row).total_value
      = (calculate_shengtang_value row).bond_floor
        + (calculate_shengtang_value row).put_value
        + (calculate_shengtang_value row).call_option_value
        + (calculate_shengtang_value row).revision_value
        - (calculate_shengtang_value row).redemption_loss := by
  have hcv : 0 < st_convert_price row := by
    rw [st_convert_price, hcp]
    exact hcp0
  rw [calculate_shengtang_value_valid row hcv]
  show st_total_value row = st_bond_floor row + st_put_value row
    + st_call_option_value row + st_revision_value row - st_redemption_loss row
  rw [st_total_value, max_eq_right (by linarith [st_put_value_nonneg row])]

/-- Witness for C2 at the same concrete record shape. -/
theorem shengtang_total_value_formula_witness :
    (calculate_shengtang_value
      ⟨some 95, some 20, some 25, some 3, some "AA", some 12⟩).total_value
      = (calculate_shengtang_value
          ⟨some 95, some 20, some 25, some 3, some "AA", some 12⟩).bond_floor
        + (calculate_shengtang_value
            ⟨some 95, some 20, some 25, some 3, some "AA", some 12⟩).put_value
        + (calculate_shengtang_value
            ⟨some 95, some 20, some 25, some 3, some "AA", some 12⟩).call_option_value
        + (calculate_shengtang_value
            ⟨some 95, some 20, some 25, some 3, some "AA", some 12⟩).revision_value
        - (calculate_shengtang_value
            ⟨some 95, some 20, some 25, some 3, some "AA", some 12⟩).redemption_loss :=
  shengtang_total_value_formula ⟨some 95, some 20, some 25, some 3, some "AA", some 12⟩
    20 25 rfl (by norm_num) rfl (by norm_num)

/-! ## C4: the batch contract, and the premium screen's column guard -/

lemma bond_floor_loop_one (face dr T : ℝ) (crs ps : List ℝ) (year : ℕ)
    (pv rem : ℝ) (h : T < (year : ℝ)) :
    bond_floor_loop face dr T crs ps 1 year (pv, rem) = (pv, rem) := by
  show bond_floor_loop face dr T crs ps (0 + 1) year (pv, rem) = (pv, rem)
  rw [bond_floor_loop, if_pos h]

/-- A record that survives the screen while carrying no premium rate: tiny
market price, short maturity (so the redemption loss vanishes and the coupon
loop is skipped), valid underlying and strike. -/
def no_premium_row : BondRecord :=
  ⟨some 1, some 20, some 25, some 0.4, none, none⟩

lemma no_premium_row_years : st_years_to_maturity no_premium_row = 0.4 := by
  rw [st_years_to_maturity]
  norm_num [no_premium_row]

lemma no_premium_row_dr : st_discount_rate no_premium_row = 0.04 := by
  have h : normalizeRating "AA" = "AA" := by decide
  have h2 : get_credit_spread (some (no_premium_row.rating.getD "AA")) = 0.015 := by
    simp [no_premium_row, get_credit_spread, h, credit_spread_table, List.lookup]
  rw [st_discount_rate, h2, risk_free_rate]
  norm_num

lemma no_premium_row_ceil : (⌈(0.4 : ℝ)⌉).toNat = 1 := by
  have h : ⌈(0.4 : ℝ)⌉ = 1 := by
    apply Int.ceil_eq_iff.mpr
    constructor <;> norm_num
  rw [h]
  rfl

lemma no_premium_row_bf : st_bond_floor no_premium_row
    = 100 / (1.04 : ℝ) ^ (0.4 : ℝ) := by
  rw [st_bond_floor, no_premium_row_years, no_premium_row_dr]
  rw [calculate_bond_floor, if_neg (by norm_num)]
  simp only [no_premium_row_ceil, Option.getD_some]
  rw [bond_floor_loop_one _ _ _ _ _ _ _ _ (by norm_num)]
  norm_num

lemma no_premium_row_bf_ge : (90 : ℝ) ≤ st_bond_floor no_premium_row := by
  rw [no_premium_row_bf]
  have h1 : (0 : ℝ) < (1.04 : ℝ) ^ (0.4 : ℝ) := Real.rpow_pos_of_pos (by norm_num) _
  have h2 : (1.04 : ℝ) ^ (0.4 : ℝ) ≤ 1.04 := by
    have h3 := Real.rpow_le_rpow_of_exponent_le
      (show (1 : ℝ) ≤ 1.04 by norm_num) (show (0.4 : ℝ) ≤ 1 by norm_num)
    rwa [Real.rpow_one] at h3
  have h4 : (100 : ℝ) / 1.04 ≤ 100 / (1.04 : ℝ) ^ (0.4 : ℝ) :=
    div_le_div_of_nonneg_left (by norm_num) h1 h2
  have h5 : (90 : ℝ) ≤ 100 / 1.04 := by norm_num
  linarith

lemma no_premium_row_loss : st_redemption_loss no_premium_row = 0 := by
  rw [st_redemption_loss, no_premium_row_years]
  rw [calculate_forced_redemption_loss, if_pos (by norm_num)]

lemma no_premium_row_total : (1 : ℝ) < st_total_value no_premium_row := by
  have hbf := no_premium_row_bf_ge
  have hpv := st_put_value_nonneg no_premium_row
  have hcall : 0 ≤ st_call_option_value no_premium_row := by
    rw [st_call_option_value]
    refine calculate_call_option_value_nonneg _ _ _ _ _ ?_
    norm_num [st_convert_price, no_premium_row]
  have hrev : 0 ≤ st_revision_value no_premium_row := by
    rw [st_revision_value]
    exact calculate_downward_revision_value_nonneg _ _ _ _ _ _
  rw [st_total_value, no_premium_row_loss]
  have hmax := le_max_left (st_bond_floor no_premium_row)
    (st_bond_floor no_premium_row + st_put_value no_premium_row)
  linarith

lemma no_premium_row_cv_pos : 0 < st_convert_price no_premium_row := by
  norm_num [st_convert_price, no_premium_row]

lemma no_premium_row_res_total :
    0 < (calculate_shengtang_value no_premium_row).total_value := by
  rw [calculate_shengtang_value_valid _ no_premium_row_cv_pos]
  show 0 < st_total_value no_premium_row
  linarith [no_premium_row_total]

lemma no_premium_row_res_dev :
    (calculate_shengtang_value no_premium_row).value_deviation < 0 := by
  have htot := no_premium_row_total
  rw [calculate_shengtang_value_valid _ no_premium_row_cv_pos]
  show (if st_total_value no_premium_row > 0 then
      (st_price no_premium_row - st_total_value no_premium_row)
        / st_total_value no_premium_row * 100 else 0) < 0
  rw [if_pos (by linarith)]
  have hp : st_price no_premium_row = 1 := by norm_num [st_price, no_premium_row]
  rw [hp]
  apply mul_neg_of_neg_of_pos _ (by norm_num)
  exact div_neg_of_neg_of_pos (by linarith) (by linarith)

/-- C4 counterexample: when the batch has no `premium_rate` column, the
source skips the premium filter (`if 'premium_rate' in df.columns`), so a
record that survives the other screens is returned while carrying no
premium rate at all — the claim's premium-bound conjunct fails on the
program. -/
theorem strategy_shengtang_premium_claim_false :
    (no_premium_row, calculate_shengtang_value no_premium_row)
      ∈ strategy_shengtang [no_premium_row] 1 50 false ∧
    ¬∃ pr : ℝ, no_premium_row.premium_rate = some pr ∧ pr ≤ 50 := by
  constructor
  · have htot := no_premium_row_res_total
    have hdev := no_premium_row_res_dev
    simp only [strategy_shengtang, List.map_cons, List.map_nil]
    rw [List.filter_cons_of_pos (by simpa using htot), List.filter_nil]
    rw [List.filter_cons_of_pos (by simpa using hdev), List.filter_nil]
    rw [if_neg (by simp)]
    rw [List.mergeSort_singleton]
    simp
  · rintro ⟨pr, hpr, -⟩
    simp [no_premium_row] at hpr

/-- C4 (amended): for every batch, `topN`, `maxPremiumRate` and
premium-column presence, the ranked output has length at most `topN`; every
returned pair has `total_value > 0` and `value_deviation < 0`; whenever the
batch carries a `premium_rate` column, every returned pair in addition has a
premium rate not exceeding `maxPremiumRate`; and the output is ordered
ascending by `value_deviation`. -/
theorem strategy_shengtang_contract (df : List BondRecord) (top_n : ℕ) (mpr : ℝ)
    (hpc : Bool) :
    (strategy_shengtang df top_n mpr hpc).length ≤ top_n ∧
    (∀ p ∈ strategy_shengtang df top_n mpr hpc,
      0 < p.2.total_value ∧ p.2.value_deviation < 0) ∧
    (hpc = true → ∀ p ∈ strategy_shengtang df top_n mpr hpc,
      ∃ pr, p.1.premium_rate = some pr ∧ pr ≤ mpr) ∧
    (strategy_shengtang df top_n mpr hpc).Pairwise
      (fun p q => p.2.value_deviation ≤ q.2.value_deviation) := by
  refine ⟨?_, ?_, ?_, ?_⟩
  · simp only [strategy_shengtang]
    exact List.length_take_le _ _
  · intro p hp
    obtain ⟨h1, h2, -⟩ := mem_strategy_total_pos hp
    exact ⟨h1, h2⟩
  · intro hpc' p hp
    obtain ⟨-, -, h3⟩ := mem_strategy_total_pos hp
    obtain ⟨pr, hpr, hlt⟩ := h3 hpc'
    exact ⟨pr, hpr, hlt.le⟩
  · simp only [strategy_shengtang]
    apply List.Pairwise.sublist (List.take_sublist _ _)
    refine List.Pairwise.imp (fun h => of_decide_eq_true h)
      (List.sorted_mergeSort ?_ ?_ _)
    · intro a b c hab hbc
      simp only [decide_eq_true_eq] at hab hbc ⊢
      linarith
    · intro a b
      simp only [Bool.or_eq_true, decide_eq_true_eq]
      exact le_total _ _

/-- Witness for C4 (amended) on a concrete batch with the premium column
present. -/
theorem strategy_shengtang_contract_witness :
    (strategy_shengtang [] 5 50 true).length ≤ 5 ∧
    (∀ p ∈ strategy_shengtang [] 5 50 true,
      ∃ pr, p.1.premium_rate = some pr ∧ pr ≤ 50) :=
  ⟨(strategy_shengtang_contract [] 5 50 true).1,
    (strategy_shengtang_contract [] 5 50 true).2.2.1 rfl⟩

/-- C7: `calculate_conversion_probability` (the spec's
`exceedanceProbability`) is monotonically non-decreasing in `S` — via the
monotone `ln` and `Φ` in the lognormal branch, and via the monotone
indicator in the degenerate branch — and its value always lies in `[0,1]`. -/
theorem conversion_probability_monotone (K T sigma threshold S₁ S₂ : ℝ)
    (hK : 0 < K) (hthr : 0 < threshold) (hS₁ : 0 < S₁) (h12 : S₁ ≤ S₂) :
    calculate_conversion_probability S₁ K T sigma threshold
      ≤ calculate_conversion_probability S₂ K T sigma threshold ∧
    (∀ S : ℝ, 0 ≤ calculate_conversion_probability S K T sigma threshold ∧
      calculate_conversion_probability S K T sigma threshold ≤ 1) := by
  constructor
  · rw [calculate_conversion_probability, calculate_conversion_probability]
    by_cases hdeg : T ≤ 0 ∨ sigma ≤ 0
    · rw [if_pos hdeg, if_pos hdeg]
      have hcv : S₁ / K * 100 ≤ S₂ / K * 100 :=
        mul_le_mul_of_nonneg_right ((div_le_div_iff_of_pos_right hK).mpr h12) (by norm_num)
      split_ifs with h1 h2
      · exact le_rfl
      · exact absurd (le_trans h1 hcv) h2
      · norm_num
      · exact le_rfl
    · rw [if_neg hdeg, if_neg hdeg]
      push_neg at hdeg
      obtain ⟨hT, hsig⟩ := hdeg
      have ha : 0 < sigma * Real.sqrt T := mul_pos hsig (Real.sqrt_pos.mpr hT)
      have hreq : 0 < K * threshold / 100 := by positivity
      apply normCDF_mono
      apply (div_le_div_iff_of_pos_right ha).mpr
      have hlog : Real.log (S₁ / (K * threshold / 100))
          ≤ Real.log (S₂ / (K * threshold / 100)) :=
        Real.log_le_log (div_pos hS₁ hreq) ((div_le_div_iff_of_pos_right hreq).mpr h12)
      linarith
  · intro S
    exact conversion_probability_mem_Icc S K T sigma threshold

/-- Witness for C7 at `K = 12, T = 3, σ = 0.385, threshold = 130`,
`S` from `10` to `11`. -/
theorem conversion_probability_monotone_witness :
    calculate_conversion_probability 10 12 3 0.385 130
      ≤ calculate_conversion_probability 11 12 3 0.385 130 :=
  (conversion_probability_monotone 12 3 0.385 130 10 11 (by norm_num) (by norm_num)
    (by norm_num) (by norm_num)).1

/-! ## C6: Black–Scholes positivity and put–call parity -/

lemma bs_ad1 (S K T r sigma : ℝ) (ha : sigma * Real.sqrt T ≠ 0) :
    (sigma * Real.sqrt T) * bs_d1 S K T r sigma
      = Real.log (S / K) + (r + 0.5 * sigma ^ 2) * T := by
  rw [bs_d1, mul_comm, div_mul_cancel₀ _ ha]

lemma bs_exponent_key (S K T r sigma : ℝ) (hS : 0 < S) (hK : 0 < K)
    (hT : 0 < T) (hs : 0 < sigma) :
    S * Real.exp (r * T - (sigma * Real.sqrt T) ^ 2 / 2)
      * Real.exp (-((sigma * Real.sqrt T) * bs_d2 S K T r sigma)) = K := by
  have ha : 0 < sigma * Real.sqrt T := mul_pos hs (Real.sqrt_pos.mpr hT)
  have hsq : (sigma * Real.sqrt T) ^ 2 = sigma ^ 2 * T := by
    rw [mul_pow, Real.sq_sqrt hT.le]
  have had2 : (sigma * Real.sqrt T) * bs_d2 S K T r sigma
      = Real.log (S / K) + (r + 0.5 * sigma ^ 2) * T - sigma ^ 2 * T := by
    rw [bs_d2, mul_sub, bs_ad1 S K T r sigma ha.ne', ← hsq]
    ring
  rw [mul_assoc, ← Real.exp_add]
  have hexp : r * T - (sigma * Real.sqrt T) ^ 2 / 2
      + -((sigma * Real.sqrt T) * bs_d2 S K T r sigma) = -Real.log (S / K) := by
    rw [hsq, had2]
    ring
  rw [hexp, Real.exp_neg, Real.exp_log (div_pos hS hK), inv_div,
    mul_comm, div_mul_cancel₀ _ hS.ne']

lemma bs_call_core_nonneg (S K T r sigma : ℝ) (hS : 0 < S) (hK : 0 < K)
    (hT : 0 < T) (hs : 0 < sigma) :
    0 ≤ S * normCDF (bs_d1 S K T r sigma)
      - K * Real.exp (-(r * T)) * normCDF (bs_d2 S K T r sigma) := by
  have ha : 0 < sigma * Real.sqrt T := mul_pos hs (Real.sqrt_pos.mpr hT)
  have hCpos : 0 ≤ S * Real.exp (r * T - (sigma * Real.sqrt T) ^ 2 / 2) := by positivity
  have hkey := shift_cdf_ge (sigma * Real.sqrt T)
    (S * Real.exp (r * T - (sigma * Real.sqrt T) ^ 2 / 2))
    (bs_d2 S K T r sigma) ha hCpos
  rw [bs_exponent_key S K T r sigma hS hK hT hs] at hkey
  have hda : bs_d2 S K T r sigma + sigma * Real.sqrt T = bs_d1 S K T r sigma := by
    rw [bs_d2]
    ring
  rw [hda] at hkey
  have hCS : S * Real.exp (r * T - (sigma * Real.sqrt T) ^ 2 / 2)
      * Real.exp ((sigma * Real.sqrt T) ^ 2 / 2) = S * Real.exp (r * T) := by
    rw [mul_assoc, ← Real.exp_add]
    ring_nf
  rw [hCS] at hkey
  have h3 : Real.exp (r * T) * Real.exp (-(r * T)) = 1 := by
    rw [← Real.exp_add]
    norm_num
  rw [sub_nonneg]
  calc K * Real.exp (-(r * T)) * normCDF (bs_d2 S K T r sigma)
      = K * normCDF (bs_d2 S K T r sigma) * Real.exp (-(r * T)) := by ring
    _ ≤ S * Real.exp (r * T) * normCDF (bs_d1 S K T r sigma) * Real.exp (-(r * T)) :=
        mul_le_mul_of_nonneg_right hkey (Real.exp_pos _).le
    _ = S * normCDF (bs_d1 S K T r sigma) * (Real.exp (r * T) * Real.exp (-(r * T))) := by
        ring
    _ = S * normCDF (bs_d1 S K T r sigma) := by rw [h3, mul_one]

lemma bs_put_core_nonneg (S K T r sigma : ℝ) (hS : 0 < S) (hK : 0 < K)
    (hT : 0 < T) (hs : 0 < sigma) :
    0 ≤ K * Real.exp (-(r * T)) * normCDF (-bs_d2 S K T r sigma)
      - S * normCDF (-bs_d1 S K T r sigma) := by
  have ha : 0 < sigma * Real.sqrt T := mul_pos hs (Real.sqrt_pos.mpr hT)
  have hCpos : 0 ≤ S * Real.exp (r * T - (sigma * Real.sqrt T) ^ 2 / 2) := by positivity
  have hkey := shift_cdf_ge_Ioi (sigma * Real.sqrt T)
    (S * Real.exp (r * T - (sigma * Real.sqrt T) ^ 2 / 2))
    (bs_d2 S K T r sigma) ha hCpos
  rw [bs_exponent_key S K T r sigma hS hK hT hs] at hkey
  have hda : bs_d2 S K T r sigma + sigma * Real.sqrt T = bs_d1 S K T r sigma := by
    rw [bs_d2]
    ring
  rw [hda] at hkey
  have hCS : S * Real.exp (r * T - (sigma * Real.sqrt T) ^ 2 / 2)
      * Real.exp ((sigma * Real.sqrt T) ^ 2 / 2) = S * Real.exp (r * T) := by
    rw [mul_assoc, ← Real.exp_add]
    ring_nf
  rw [hCS] at hkey
  have h3 : Real.exp (r * T) * Real.exp (-(r * T)) = 1 := by
    rw [← Real.exp_add]
    norm_num
  rw [sub_nonneg]
  calc S * normCDF (-bs_d1 S K T r sigma)
      = S * Real.exp (r * T) * normCDF (-bs_d1 S K T r sigma)
          * Real.exp (-(r * T)) := by
        rw [show S * Real.exp (r * T) * normCDF (-bs_d1 S K T r sigma)
              * Real.exp (-(r * T))
            = S * normCDF (-bs_d1 S K T r sigma)
              * (Real.exp (r * T) * Real.exp (-(r * T))) from by ring, h3, mul_one]
    _ ≤ K * normCDF (-bs_d2 S K T r sigma) * Real.exp (-(r * T)) :=
        mul_le_mul_of_nonneg_right hkey (Real.exp_pos _).le
    _ = K * Real.exp (-(r * T)) * normCDF (-bs_d2 S K T r sigma) := by ring

/-- C6: in the non-degenerate region `S, K, T, σ > 0` (any `r`) the two
`max(0, ·)` clamps never bind — both closed-form prices are already
non-negative — and put-call parity
`call - put = S - K e^{-rT}` holds exactly over the reals. -/
theorem black_scholes_put_call_parity (S K T r sigma : ℝ)
    (hS : 0 < S) (hK : 0 < K) (hT : 0 < T) (hs : 0 < sigma) :
    black_scholes_call S K T r sigma - black_scholes_put S K T r sigma
      = S - K * Real.exp (-(r * T)) ∧
    black_scholes_call S K T r sigma
      = S * normCDF (bs_d1 S K T r sigma)
        - K * Real.exp (-(r * T)) * normCDF (bs_d2 S K T r sigma) ∧
    black_scholes_put S K T r sigma
      = K * Real.exp (-(r * T)) * normCDF (-bs_d2 S K T r sigma)
        - S * normCDF (-bs_d1 S K T r sigma) := by
  have hcond : ¬(T ≤ 0 ∨ sigma ≤ 0 ∨ S ≤ 0 ∨ K ≤ 0) := by
    push_neg
    exact ⟨hT, hs, hS, hK⟩
  have hcall : black_scholes_call S K T r sigma
      = S * normCDF (bs_d1 S K T r sigma)
        - K * Real.exp (-(r * T)) * normCDF (bs_d2 S K T r sigma) := by
    rw [black_scholes_call, if_neg hcond,
      max_eq_right (bs_call_core_nonneg S K T r sigma hS hK hT hs)]
  have hput : black_scholes_put S K T r sigma
      = K * Real.exp (-(r * T)) * normCDF (-bs_d2 S K T r sigma)
        - S * normCDF (-bs_d1 S K T r sigma) := by
    rw [black_scholes_put, if_neg hcond,
      max_eq_right (bs_put_core_nonneg S K T r sigma hS hK hT hs)]
  refine ⟨?_, hcall, hput⟩
  rw [hcall, hput]
  have hp1 := normCDF_add_neg (bs_d1 S K T r sigma)
  have hp2 := normCDF_add_neg (bs_d2 S K T r sigma)
  linear_combination S * hp1 - K * Real.exp (-(r * T)) * hp2

/-- Witness for C6 at `S = K = T = σ = 1, r = 0`. -/
theorem black_scholes_put_call_parity_witness :
    black_scholes_call 1 1 1 0 1 - black_scholes_put 1 1 1 0 1
      = 1 - 1 * Real.exp (-(0 * 1)) :=
  (black_scholes_put_call_parity 1 1 1 0 1 (by norm_num) (by norm_num)
    (by norm_num) (by norm_num)).1

end

end CB
